import Mathlib

/-!
Verification of the fin-agent-desktop orchestrator core.

The definitions below are a shallow embedding of the TypeScript sources:
the SSE stream decoder and chat request handling from the Electron main
process, the port reaper, the global-shortcut handlers, the preload
channel bridges, and the ChatView stream reducer.  JavaScript strings are
modeled as Lean String or List Char; JavaScript truthiness of a string is
modeled as being nonempty.
-/

namespace FinAgent

/-! ## JavaScript string primitives, modeled over List Char -/

/-- JS String.prototype.trimEnd on a char-list string. -/
def jsTrimEnd (s : List Char) : List Char :=
  (s.reverse.dropWhile Char.isWhitespace).reverse

/-- JS String.prototype.trimStart on a char-list string. -/
def jsTrimStart (s : List Char) : List Char :=
  s.dropWhile Char.isWhitespace

/-- JS String.prototype.trim on a char-list string. -/
def jsTrim (s : List Char) : List Char :=
  jsTrimEnd (jsTrimStart s)

/-- JS s.split("\n") on a char-list string: split at every newline,
keeping empty pieces. -/
def splitNL : List Char → List (List Char)
  | [] => [[]]
  | c :: rest =>
    if c = '\n' then [] :: splitNL rest
    else
      match splitNL rest with
      | [] => [[c]]
      | l :: ls => (c :: l) :: ls

/-- Split a char-list string at every character satisfying p, keeping
empty pieces. -/
def splitPred (p : Char → Bool) : List Char → List (List Char)
  | [] => [[]]
  | c :: rest =>
    if p c then [] :: splitPred p rest
    else
      match splitPred p rest with
      | [] => [[c]]
      | l :: ls => (c :: l) :: ls

/-- JS String.prototype.trim lifted back to Lean strings. -/
def strTrim (s : String) : String :=
  ⟨jsTrim s.data⟩

/-- JS s.split("\n") lifted back to Lean strings. -/
def strSplitNL (s : String) : List String :=
  (splitNL s.data).map fun l => (⟨l⟩ : String)

/-! ## StreamFrameDecoder: the submit-input streaming loop in the main
process.  The response data handler appends each chunk to a buffer,
normalizes CRLF to LF over the whole buffer, then repeatedly extracts
frames at the first "\n\n" separator and feeds each frame to flushEvent. -/

/-- One left-to-right non-overlapping pass of buffer.replace of CRLF with
LF, exactly as the JS global-regex replace behaves. -/
def normalizeCRLF : List Char → List Char
  | [] => []
  | [c] => [c]
  | c :: d :: rest =>
    if c = '\r' ∧ d = '\n' then '\n' :: normalizeCRLF rest
    else c :: normalizeCRLF (d :: rest)

/-- Index of the first occurrence of the frame separator "\n\n" in the
buffer, mirroring buffer.indexOf of the two-newline string. -/
def sepIndexOf : List Char → Option Nat
  | [] => none
  | [_] => none
  | c :: d :: rest =>
    if c = '\n' ∧ d = '\n' then some 0
    else (sepIndexOf (d :: rest)).map (· + 1)

/-- The while loop of the data handler, bounded by a fuel argument:
slice off the text before the first separator as one frame, advance the
buffer past the separator, repeat.  Each iteration consumes at least two
characters, so a fuel of the buffer length is always enough. -/
def drainAux : Nat → List Char → List (List Char) × List Char
  | 0, b => ([], b)
  | fuel + 1, b =>
    match sepIndexOf b with
    | none => ([], b)
    | some idx =>
      let p := drainAux fuel (b.drop (idx + 2))
      (b.take idx :: p.1, p.2)

/-- The while loop of the data handler: repeatedly slice off the text
before the first separator as one frame and advance the buffer past the
separator.  Returns the complete frames in order and the leftover
buffer. -/
def drainFrames (b : List Char) : List (List Char) × List Char :=
  drainAux b.length b

/-- The replace of at most one leading whitespace character applied to the
text after the data marker. -/
def stripOneWS : List Char → List Char
  | [] => []
  | c :: rest => if c.isWhitespace then rest else c :: rest

/-- The data lines of one frame: split the frame at newlines, trim each
line at the right, skip empty lines, keep only lines starting with the
data marker, strip the marker and at most one leading space. -/
def frameDataLines (frame : List Char) : List (List Char) :=
  (splitNL frame).filterMap fun raw =>
    let line := jsTrimEnd raw
    if line = [] then none
    else if line.take 5 = "data:".data then some (stripOneWS (line.drop 5))
    else none

/-- A decoded streaming event: either the synthetic finish event produced
by the DONE sentinel, or a successfully parsed JSON payload. -/
inductive StreamEvent (J : Type) where
  | finish
  | json (j : J)
deriving DecidableEq

/-- flushEvent from the main process: collect the data lines of a frame,
join them with a newline, emit finish on the DONE sentinel, otherwise
parse the payload; a frame with no data lines or an unparsable payload
emits nothing.  The JSON parser is a parameter of the model. -/
def flushEvent {J : Type} (parse : List Char → Option J) (eventText : List Char) :
    Option (StreamEvent J) :=
  let dataLines := frameDataLines eventText
  if dataLines = [] then none
  else
    let dataStr := (dataLines.intersperse ['\n']).flatten
    if dataStr = "[DONE]".data then some .finish
    else (parse dataStr).map .json

/-- State of the streaming response decoder: the pending buffer and the
events sent to the renderer so far, in order. -/
structure DecoderState (J : Type) where
  buffer : List Char
  events : List (StreamEvent J)
deriving DecidableEq

/-- The res.on data handler: append the chunk, normalize CRLF, extract
every complete frame and flush each one. -/
def onData {J : Type} (parse : List Char → Option J)
    (st : DecoderState J) (chunk : List Char) : DecoderState J :=
  let b := normalizeCRLF (st.buffer ++ chunk)
  let p := drainFrames b
  { buffer := p.2, events := st.events ++ p.1.filterMap (flushEvent parse) }

/-- The res.on end handler: flush a non-blank trailing buffer through the
same per-frame logic as a best-effort final frame. -/
def onEnd {J : Type} (parse : List Char → Option J) (st : DecoderState J) :
    DecoderState J :=
  if jsTrim st.buffer ≠ [] then
    { st with events := st.events ++ (flushEvent parse st.buffer).toList }
  else st

/-- Feed a whole sequence of chunks to the decoder, starting from the
empty buffer. -/
def runDecoder {J : Type} (parse : List Char → Option J)
    (chunks : List (List Char)) : DecoderState J :=
  chunks.foldl (onData parse) ⟨[], []⟩

/-! ## LocalRpcClient error paths of the streaming chat request.

The submit-input handler wraps only the synchronous request setup in
try/catch.  The response callback, the request error listener and the
response error listener run later, on the event loop: an exception
thrown inside one of them is not caught by that try/catch and reaches
the process level uncaughtException handler, which terminates the
process. -/

/-- What one of the asynchronous chat-request callbacks does when it
runs: send a bot-stream payload to the renderer, throw out of the
callback into the event loop, or continue streaming. -/
inductive Reaction where
  | sendErrorEvent (msg : String)
  | thrown (msg : String)
  | proceed
deriving DecidableEq

/-- The head of the http.request response callback: a non-200 status
throws an Error inside the callback; a 200 status proceeds to install
the stream decoder. -/
def onResponseStatus (statusCode : Nat) : Reaction :=
  if statusCode ≠ 200 then .thrown ("HTTP error! status: " ++ toString statusCode)
  else .proceed

/-- The req.on error listener: a connection-level failure is forwarded to
the renderer as an error-tagged bot-stream event. -/
def onRequestError (msg : String) : Reaction :=
  .sendErrorEvent ("Request error: " ++ msg)

/-- The res.on error listener: a mid-stream response error is forwarded
to the renderer as an error-tagged bot-stream event. -/
def onResponseStreamError (msg : String) : Reaction :=
  .sendErrorEvent ("Stream error: " ++ msg)

/-! ## PortReaper: killProcessOnPort.

The discovery commands and the per-pid kill commands are operating
system effects; the model receives their outcomes as an environment and
records the sequence of termination signals issued. -/

/-- Kind of termination signal sent to a process: a graceful request or a
forced kill.  killProcessOnPort only ever issues forced kills, namely
taskkill /F on Windows and kill -9 elsewhere. -/
inductive SigKind where
  | graceful
  | forced
deriving DecidableEq

/-- Outcomes of the OS commands run by killProcessOnPort: the discovery
command output (none models a rejected command, as findstr or lsof exit
nonzero when nothing matches) and whether each per-pid kill command
succeeds. -/
structure PortCmdEnv where
  netstat : Option String
  lsof : Option String
  killOk : String → Bool

/-- JS line.trim().split on whitespace runs: the whitespace-separated
words of a line. -/
def jsWords (s : String) : List String :=
  ((splitPred Char.isWhitespace s.data).map fun l => (⟨l⟩ : String)).filter (· ≠ "")

/-- JS isNaN of parseInt of the string is false: after optional leading
whitespace and one optional sign, the string starts with a digit. -/
def parseIntNotNaN (s : String) : Bool :=
  let t := s.data.dropWhile Char.isWhitespace
  let t2 := match t with
    | c :: r => if c = '+' ∨ c = '-' then r else t
    | [] => []
  match t2 with
  | c :: _ => c.isDigit
  | [] => false

/-- Windows candidate pids: for each netstat output line, take the last
whitespace-separated field; keep it when it is nonempty, not the string
zero, and parses as a number; deduplicate preserving first insertion
order, as the JS Set does. -/
def winCandidates (out : String) : List String :=
  (strSplitNL (strTrim out)).foldl
    (fun acc line =>
      match (jsWords (strTrim line)).getLast? with
      | some pid =>
        if pid ≠ "" ∧ pid ≠ "0" ∧ parseIntNotNaN pid then
          if pid ∈ acc then acc else acc ++ [pid]
        else acc
      | none => acc)
    []

/-- The raw lsof output lines: stdout.trim().split at newlines; the kill
loop skips empty entries. -/
def unixPidLines (out : String) : List String :=
  strSplitNL (strTrim out)

/-- The Unix kill loop: send kill -9 to each nonempty pid in order; a
failing kill command rejects the awaited promise, which aborts the loop
(the exception lands in the surrounding catch), so later pids are never
signaled. -/
def unixKillTrace (killOk : String → Bool) : List String → List (String × SigKind)
  | [] => []
  | p :: rest =>
    if p = "" then unixKillTrace killOk rest
    else if killOk p then (p, .forced) :: unixKillTrace killOk rest
    else [(p, .forced)]

/-- The platform dispatched on at the top of killProcessOnPort. -/
inductive Platform where
  | win32
  | unix
deriving DecidableEq

/-- killProcessOnPort: returns the sequence of termination signals issued
and whether the call threw.  Every code path is inside a try/catch (the
Windows per-pid kill has its own catch, the Unix branch catches around
the whole loop, and an outer catch wraps everything), so the call never
throws. -/
def killProcessOnPort (platform : Platform) (env : PortCmdEnv) :
    List (String × SigKind) × Bool :=
  match platform with
  | .win32 =>
    match env.netstat with
    | none => ([], false)
    | some out =>
      if out = "" then ([], false)
      else ((winCandidates out).map (fun p => (p, SigKind.forced)), false)
  | .unix =>
    match env.lsof with
    | none => ([], false)
    | some out =>
      if out = "" then ([], false)
      else (unixKillTrace env.killOk (unixPidLines out), false)

/-! ## ChatView stream reducer: the tool_call_chunk and answer branches
of the onBotStream handler, over the block model of one assistant
message. -/

/-- Status of a tool execution block. -/
inductive BlockStatus where
  | running
  | success
  | error
deriving DecidableEq

/-- A tool execution record assembled from the stream. -/
structure ToolExec where
  name : String
  args : String
  result : Option String
  status : BlockStatus
  lastChunkLength : Option Nat
deriving DecidableEq

/-- One block of an assistant message. -/
inductive ChatBlock where
  | text (content : String)
  | thinking (content : String)
  | tool (t : ToolExec)
deriving DecidableEq

/-- The assistant message being assembled: its legacy flat content and
its block list. -/
structure AssistantMsg where
  content : String
  logs : String
  blocks : List ChatBlock
deriving DecidableEq

/-- JS a.endsWith b over Lean strings. -/
def jsEndsWith (a b : String) : Bool := b.data.isSuffixOf a.data

/-- The tool_call_chunk branch of onBotStream.  An absent name or
arguments field is modeled as the empty string, which is what the JS
truthiness tests treat it as.  First the name handling may create or
rename the trailing tool block, then the arguments chunk is appended to
the trailing running tool block unless it is already a suffix of the
accumulated arguments, in which case it is discarded. -/
def handleToolCallChunk (msg : AssistantMsg) (nm args : String) : AssistantMsg :=
  let blocks := msg.blocks
  let blocks1 :=
    if nm ≠ "" then
      match blocks.getLast? with
      | some (ChatBlock.tool t) =>
        if t.status ≠ .running ∨ (t.name ≠ "" ∧ t.name ≠ nm) then
          blocks ++ [ChatBlock.tool ⟨nm, "", none, .running, some 0⟩]
        else if t.name = "" then
          blocks.dropLast ++
            [ChatBlock.tool { t with name := nm, lastChunkLength := some (t.lastChunkLength.getD 0) }]
        else blocks
      | _ => blocks ++ [ChatBlock.tool ⟨nm, "", none, .running, some 0⟩]
    else blocks
  if args ≠ "" then
    match blocks1.getLast? with
    | some (ChatBlock.tool t) =>
      if t.status = .running then
        if jsEndsWith t.args args then { msg with blocks := blocks1 }
        else
          { msg with blocks := blocks1.dropLast ++ [ChatBlock.tool { t with args := t.args ++ args, lastChunkLength := some (t.args ++ args).length }] }
      else { msg with blocks := blocks1 }
    | _ => { msg with blocks := blocks1 }
  else { msg with blocks := blocks1 }

/-- The answer branch of onBotStream: when no streamed content has been
accumulated yet (empty or whitespace-only), the answer text becomes the
final content and is appended to the block list; otherwise the event is
ignored. -/
def handleAnswer (msg : AssistantMsg) (ans : String) : AssistantMsg :=
  if msg.content = "" ∨ strTrim msg.content = "" then
    let blocks :=
      if msg.blocks = [] then [ChatBlock.text ans]
      else
        match msg.blocks.getLast? with
        | some (ChatBlock.text c) => msg.blocks.dropLast ++ [ChatBlock.text (c ++ ans)]
        | _ => msg.blocks ++ [ChatBlock.text ans]
    { msg with content := ans, blocks := blocks }
  else msg

/-! ## SessionStateMachine: the isResponding and isTyping flags of
ChatView and the submission gate of handleSubmit. -/

/-- Tags of bot-stream events as dispatched on by the onBotStream
handler. -/
inductive StreamTag where
  | content
  | answer
  | thinking
  | toolCall
  | toolChunk
  | toolResult
  | log
  | error
  | finish
deriving DecidableEq

/-- Whether a tag is one of the tags that raise isResponding when it is
currently false. -/
def raisesResponding : StreamTag → Bool
  | .content | .answer | .thinking | .toolCall | .toolChunk => true
  | _ => false

/-- The UI flags of ChatView that gate submission. -/
structure ChatUiFlags where
  isResponding : Bool
  isTyping : Bool
deriving DecidableEq

/-- The flag updates performed by the onBotStream handler for one event:
first the functional update that raises isResponding on content-bearing
tags, then the typing indicator update, which also clears isResponding
on an error or finish event. -/
def onBotStreamFlags (st : ChatUiFlags) (t : StreamTag) : ChatUiFlags :=
  let r1 := if !st.isResponding ∧ raisesResponding t then true else st.isResponding
  match t with
  | .error | .finish => { isResponding := false, isTyping := false }
  | .content | .answer => { isResponding := r1, isTyping := false }
  | _ => { st with isResponding := r1 }

/-- handleSubmit of ChatView: a submission while the assistant is
responding is rejected and changes nothing; a blank input is rejected;
otherwise the input is sent and isResponding is set.  Returns the new
flags and whether the submission was accepted. -/
def submitInput (st : ChatUiFlags) (input : String) : ChatUiFlags × Bool :=
  if st.isResponding then (st, false)
  else if strTrim input = "" then (st, false)
  else ({ st with isResponding := true }, true)

/-! ## HotkeyCoordinator: the main-process global shortcut registry,
registerGlobalShortcut, and the suspend / resume / check handlers.  The
operating system decision of whether an accelerator can be acquired is
the oracle os. -/

/-- The global shortcut state of the main process: the accelerators this
process has registered and the remembered accelerator
currentGlobalShortcut used to resume. -/
structure HkState where
  regs : List String
  current : String
deriving DecidableEq

/-- globalShortcut.register: fails when the accelerator is already held
by this process or the system refuses it, otherwise records the
binding. -/
def registerOne (os : String → Bool) (st : HkState) (s : String) : HkState × Bool :=
  if s ∈ st.regs ∨ ¬ os s then (st, false)
  else ({ st with regs := st.regs ++ [s] }, true)

/-- registerGlobalShortcut: unregister every existing binding, then
attempt the new one; only a successful registration updates the
remembered accelerator. -/
def registerGlobalShortcut (os : String → Bool) (st : HkState) (s : String) : HkState :=
  let st0 : HkState := { st with regs := [] }
  match registerOne os st0 s with
  | (st1, true) => { st1 with current := s }
  | (st1, false) => st1

/-- The suspend-shortcut handler: unregister everything, keeping the
remembered accelerator. -/
def suspendShortcut (st : HkState) : HkState :=
  { st with regs := [] }

/-- The resume-shortcut handler: re-register the remembered accelerator
when there is one. -/
def resumeShortcut (os : String → Bool) (st : HkState) : HkState :=
  if st.current ≠ "" then registerGlobalShortcut os st st.current else st

/-- The check-shortcut handler: report an accelerator this process
already holds as unavailable without touching it; otherwise register a
throwaway handler to probe availability and unregister it again on
success. -/
def checkShortcut (os : String → Bool) (st : HkState) (s : String) : HkState × Bool :=
  if s ∈ st.regs then (st, false)
  else
    match registerOne os st s with
    | (st1, true) => ({ st1 with regs := st1.regs.erase s }, true)
    | (st1, false) => (st1, false)

/-! ## EventBus: createChannelBridge of the preload script, and the
onNavigate subscription that bypasses it. -/

/-- One channel bridge: the number of low-level ipcRenderer listeners
installed for the channel and the subscribed renderer callbacks in
insertion order.  createChannelBridge removes any previous low-level
listener and installs exactly one, which fans a payload out over the
callback set. -/
structure Bridge (H : Type) where
  lowLevel : Nat
  callbacks : List H
deriving DecidableEq

/-- The bridge as created by createChannelBridge: one low-level listener,
no subscribers yet. -/
def createChannelBridge (H : Type) : Bridge H :=
  { lowLevel := 1, callbacks := [] }

/-- Subscribing a callback: JS Set.add, which is a no-op on an already
present element and otherwise appends in insertion order.  The low-level
listener count is untouched. -/
def bridgeSubscribe {H : Type} [DecidableEq H] (b : Bridge H) (h : H) : Bridge H :=
  if h ∈ b.callbacks then b else { b with callbacks := b.callbacks ++ [h] }

/-- The unsubscribe closure returned by the bridge: JS Set.delete. -/
def bridgeUnsubscribe {H : Type} [DecidableEq H] (b : Bridge H) (h : H) : Bridge H :=
  { b with callbacks := b.callbacks.erase h }

/-- One delivery of a payload on the channel: the single low-level
listener synchronously invokes every subscribed callback in insertion
order, once each. -/
def bridgePublish {H P : Type} (b : Bridge H) (payload : P) : List (H × P) :=
  b.callbacks.map fun h => (h, payload)

/-- A subscribe or unsubscribe call against a bridge. -/
inductive BridgeOp (H : Type) where
  | sub (h : H)
  | unsub (h : H)

/-- Apply one bridge operation. -/
def applyBridgeOp {H : Type} [DecidableEq H] (b : Bridge H) : BridgeOp H → Bridge H
  | .sub h => bridgeSubscribe b h
  | .unsub h => bridgeUnsubscribe b h

/-- Run a sequence of subscribe and unsubscribe calls against a freshly
created bridge. -/
def runBridgeOps {H : Type} [DecidableEq H] (ops : List (BridgeOp H)) : Bridge H :=
  ops.foldl applyBridgeOp (createChannelBridge H)

/-- The navigate-route channel as served by api.onNavigate, which calls
ipcRenderer.on directly each time: the list of low-level listeners
installed on the channel, each wrapping one callback. -/
structure NavChannel (H : Type) where
  listeners : List H
deriving DecidableEq

/-- api.onNavigate: installs one more low-level listener wrapping the
callback and returns nothing, so no unsubscribe is possible. -/
def onNavigate {H : Type} (ch : NavChannel H) (cb : H) : NavChannel H :=
  { listeners := ch.listeners ++ [cb] }

/-- One navigate-route delivery: every installed low-level listener fires
its callback once. -/
def navPublish {H P : Type} (ch : NavChannel H) (payload : P) : List (H × P) :=
  ch.listeners.map fun h => (h, payload)

/-- The channel state after n calls of onNavigate with the same
callback, starting from a channel with no listeners. -/
def navAfter {H : Type} : Nat → H → NavChannel H
  | 0, _ => ⟨[]⟩
  | n + 1, cb => onNavigate (navAfter n cb) cb

end FinAgent

namespace FinAgent

/-! ## Helper lemmas about the frame separator scan -/

theorem sepIndexOf_some_le {b : List Char} {i : Nat} (h : sepIndexOf b = some i) :
    i + 2 ≤ b.length := by
  induction b using sepIndexOf.induct generalizing i with
  | case1 => simp [sepIndexOf] at h
  | case2 c => simp [sepIndexOf] at h
  | case3 c d rest hcd =>
    rw [sepIndexOf, if_pos hcd] at h
    cases h
    simp
  | case4 c d rest hcd ih =>
    rw [sepIndexOf, if_neg hcd] at h
    rw [Option.map_eq_some'] at h
    obtain ⟨j, hj, hji⟩ := h
    have := ih hj
    simp only [List.length_cons] at this ⊢
    omega

theorem sepIndexOf_append {b : List Char} {i : Nat} (ext : List Char)
    (h : sepIndexOf b = some i) : sepIndexOf (b ++ ext) = some i := by
  induction b using sepIndexOf.induct generalizing i with
  | case1 => simp [sepIndexOf] at h
  | case2 c => simp [sepIndexOf] at h
  | case3 c d rest hcd =>
    rw [sepIndexOf, if_pos hcd] at h
    rw [List.cons_append, List.cons_append, sepIndexOf, if_pos hcd]
    exact h
  | case4 c d rest hcd ih =>
    rw [sepIndexOf, if_neg hcd] at h
    rw [Option.map_eq_some'] at h
    obtain ⟨j, hj, hji⟩ := h
    rw [List.cons_append, List.cons_append, sepIndexOf, if_neg hcd]
    have := ih hj
    rw [List.cons_append] at this
    rw [this]
    simp [hji]

theorem drainAux_of_none {b : List Char} (fuel : Nat) (h : sepIndexOf b = none) :
    drainAux fuel b = ([], b) := by
  cases fuel with
  | zero => rfl
  | succ n => simp [drainAux, h]

theorem drainAux_congr : ∀ (f₁ f₂ : Nat) (b : List Char),
    b.length ≤ f₁ → b.length ≤ f₂ → drainAux f₁ b = drainAux f₂ b := by
  intro f₁
  induction f₁ with
  | zero =>
    intro f₂ b h₁ _
    have hb : b = [] := List.length_eq_zero.mp (Nat.le_zero.mp h₁)
    subst hb
    rw [@drainAux_of_none [] f₂ rfl]
    rfl
  | succ n ih =>
    intro f₂ b h₁ h₂
    cases h : sepIndexOf b with
    | none => rw [drainAux_of_none _ h, drainAux_of_none _ h]
    | some idx =>
      have hle := sepIndexOf_some_le h
      cases f₂ with
      | zero => exfalso; omega
      | succ m =>
        simp only [drainAux, h]
        have hdrop : (b.drop (idx + 2)).length ≤ n := by
          simp only [List.length_drop]
          omega
        have hdrop2 : (b.drop (idx + 2)).length ≤ m := by
          simp only [List.length_drop]
          omega
        rw [ih m (b.drop (idx + 2)) hdrop hdrop2]

theorem drainFrames_none {b : List Char} (h : sepIndexOf b = none) :
    drainFrames b = ([], b) :=
  drainAux_of_none b.length h

theorem drainFrames_some {b : List Char} {idx : Nat} (h : sepIndexOf b = some idx) :
    drainFrames b =
      (b.take idx :: (drainFrames (b.drop (idx + 2))).1,
       (drainFrames (b.drop (idx + 2))).2) := by
  have hle := sepIndexOf_some_le h
  unfold drainFrames
  cases hb : b.length with
  | zero => omega
  | succ n =>
    simp only [drainAux, h]
    have heq : drainAux n (b.drop (idx + 2)) =
        drainAux (b.drop (idx + 2)).length (b.drop (idx + 2)) := by
      apply drainAux_congr
      · simp only [List.length_drop]
        omega
      · exact le_rfl
    rw [heq]

/-- Induction principle following the frame extraction loop. -/
theorem drainFrames_rec (P : List Char → Prop)
    (h0 : ∀ b, sepIndexOf b = none → P b)
    (h1 : ∀ b idx, sepIndexOf b = some idx → P (b.drop (idx + 2)) → P b) :
    ∀ b, P b := by
  suffices H : ∀ n b, b.length ≤ n → P b by
    intro b
    exact H b.length b le_rfl
  intro n
  induction n with
  | zero =>
    intro b hb
    have hb0 : b = [] := List.length_eq_zero.mp (Nat.le_zero.mp hb)
    subst hb0
    exact h0 [] rfl
  | succ n ih =>
    intro b hb
    cases h : sepIndexOf b with
    | none => exact h0 b h
    | some idx =>
      refine h1 b idx h (ih _ ?_)
      have := sepIndexOf_some_le h
      simp only [List.length_drop]
      omega

theorem drainFrames_append (b ext : List Char) :
    drainFrames (b ++ ext) =
      ((drainFrames b).1 ++ (drainFrames ((drainFrames b).2 ++ ext)).1,
       (drainFrames ((drainFrames b).2 ++ ext)).2) := by
  induction b using drainFrames_rec with
  | h0 b h => simp [drainFrames_none h]
  | h1 b idx h ih =>
    have h2 := sepIndexOf_append ext h
    have hle := sepIndexOf_some_le h
    rw [drainFrames_some h, drainFrames_some h2,
        List.take_append_of_le_length (by omega),
        List.drop_append_of_le_length (by omega), ih]
    simp

theorem sepIndexOf_drainFrames_snd (b : List Char) :
    sepIndexOf (drainFrames b).2 = none := by
  induction b using drainFrames_rec with
  | h0 b h => rw [drainFrames_none h]; exact h
  | h1 b idx h ih => rw [drainFrames_some h]; exact ih

theorem mem_drainFrames_snd {x : Char} (b : List Char) (hx : x ∈ (drainFrames b).2) :
    x ∈ b := by
  induction b using drainFrames_rec with
  | h0 b h => rw [drainFrames_none h] at hx; exact hx
  | h1 b idx h ih =>
    rw [drainFrames_some h] at hx
    exact List.mem_of_mem_drop (ih hx)

theorem normalizeCRLF_of_no_cr {b : List Char} (h : '\r' ∉ b) :
    normalizeCRLF b = b := by
  induction b using normalizeCRLF.induct with
  | case1 => rfl
  | case2 c => rfl
  | case3 c d rest hcd ih =>
    exfalso
    exact h (hcd.1 ▸ List.mem_cons_self c (d :: rest))
  | case4 c d rest hcd ih =>
    rw [normalizeCRLF, if_neg hcd]
    rw [ih fun hmem => h (List.mem_cons_of_mem c hmem)]

theorem length_filterMap_of_isSome {α β : Type} (f : α → Option β) :
    ∀ l : List α, (∀ a ∈ l, (f a).isSome) → (l.filterMap f).length = l.length := by
  intro l
  induction l with
  | nil => intro _; rfl
  | cons a rest ih =>
    intro h
    have ha := h a (List.mem_cons_self a rest)
    cases hfa : f a with
    | none =>
      exfalso
      rw [hfa] at ha
      simp at ha
    | some b =>
      simp only [List.filterMap_cons, hfa, List.length_cons]
      rw [ih fun x hx => h x (List.mem_cons_of_mem a hx)]


theorem foldl_onData {J : Type} (parse : List Char → Option J) :
    ∀ (chunks : List (List Char)) (st : DecoderState J),
      '\r' ∉ st.buffer → '\r' ∉ chunks.flatten → sepIndexOf st.buffer = none →
      (chunks.foldl (onData parse) st).buffer =
        (drainFrames (st.buffer ++ chunks.flatten)).2 ∧
      (chunks.foldl (onData parse) st).events =
        st.events ++ ((drainFrames (st.buffer ++ chunks.flatten)).1).filterMap (flushEvent parse) := by
  intro chunks
  induction chunks with
  | nil =>
    intro st hb _ hsep
    simp only [List.foldl_nil, List.flatten_nil, List.append_nil]
    rw [drainFrames_none hsep]
    simp
  | cons chunk rest ih =>
    intro st hb hcr hsep
    have hchunk : '\r' ∉ chunk := fun hm =>
      hcr (List.mem_flatten.mpr ⟨chunk, List.mem_cons_self _ _, hm⟩)
    have hrest : '\r' ∉ rest.flatten := fun hm => by
      apply hcr
      rw [List.flatten_cons, List.mem_append]
      exact Or.inr hm
    have hbc : '\r' ∉ st.buffer ++ chunk := fun hm => by
      rcases List.mem_append.mp hm with h1 | h2
      · exact hb h1
      · exact hchunk h2
    have honestep : onData parse st chunk =
        ⟨(drainFrames (st.buffer ++ chunk)).2,
         st.events ++ ((drainFrames (st.buffer ++ chunk)).1).filterMap (flushEvent parse)⟩ := by
      unfold onData
      rw [normalizeCRLF_of_no_cr hbc]
    have hb2 : '\r' ∉ (drainFrames (st.buffer ++ chunk)).2 := fun hm =>
      hbc (mem_drainFrames_snd _ hm)
    have hsep2 := sepIndexOf_drainFrames_snd (st.buffer ++ chunk)
    have := ih (onData parse st chunk) (by rw [honestep]; exact hb2) hrest (by rw [honestep]; exact hsep2)
    rw [honestep] at this
    obtain ⟨hbuf, hev⟩ := this
    have hsplit := drainFrames_append (st.buffer ++ chunk) rest.flatten
    constructor
    · rw [List.foldl_cons, honestep, hbuf]
      rw [List.flatten_cons, ← List.append_assoc, hsplit]
    · rw [List.foldl_cons, honestep, hev]
      rw [List.flatten_cons, ← List.append_assoc, hsplit]
      simp [List.filterMap_append]

/-- C1: for every sequence of streamed chunks (carriage-return-free, the
separator being the bare double newline), the decoder emits exactly the
events of the complete double-newline-terminated frames of the
concatenated input, in order — one event per complete frame whenever
every complete frame decodes to an event — no event is emitted for the
incomplete trailing bytes, which stay in the buffer, and the trailing
buffer is flushed through the same frame logic only at stream end. -/
theorem stream_decoder_frames {J : Type} (parse : List Char → Option J)
    (chunks : List (List Char)) (hcr : '\r' ∉ chunks.flatten) :
    (runDecoder parse chunks).events =
      ((drainFrames chunks.flatten).1).filterMap (flushEvent parse) ∧
    (runDecoder parse chunks).buffer = (drainFrames chunks.flatten).2 ∧
    ((∀ f ∈ (drainFrames chunks.flatten).1, (flushEvent parse f).isSome) →
      (runDecoder parse chunks).events.length = (drainFrames chunks.flatten).1.length) ∧
    (onEnd parse (runDecoder parse chunks)).events =
      (runDecoder parse chunks).events ++
        (if jsTrim (drainFrames chunks.flatten).2 ≠ [] then
           (flushEvent parse (drainFrames chunks.flatten).2).toList
         else []) := by
  have h := foldl_onData parse chunks ⟨[], []⟩ (by simp) hcr rfl
  simp only [List.nil_append] at h
  obtain ⟨hbuf, hev⟩ := h
  have hbuf2 : (runDecoder parse chunks).buffer = (drainFrames chunks.flatten).2 := hbuf
  have hev2 : (runDecoder parse chunks).events =
      List.filterMap (flushEvent parse) (drainFrames chunks.flatten).1 := hev
  refine ⟨hev2, hbuf2, ?_, ?_⟩
  · intro hall
    rw [hev2]
    exact length_filterMap_of_isSome _ _ hall
  · unfold onEnd
    rw [hbuf2]
    split
    · rfl
    · simp


/-! ## C1: stream decoder witness -/

/-- C1 witness: two chunks whose concatenation holds two complete frames
with the frame boundary falling inside the second frame; the decoder
emits exactly the two decoded events. -/
theorem stream_decoder_frames_witness :
    (runDecoder (fun s => some s)
        ["data: alpha\n\nda".data, "ta: beta\n\n".data]).events =
      [StreamEvent.json "alpha".data, StreamEvent.json "beta".data] := by
  have h := (stream_decoder_frames (fun s => some s)
      ["data: alpha\n\nda".data, "ta: beta\n\n".data] (by decide)).1
  rw [h]
  decide

/-! ## C2: transport errors on the streaming chat request -/

/-- C2: a connection-level request error and a mid-stream response error
are each forwarded to the renderer as an error-tagged bot-stream event
carrying the underlying message; but a non-success status on the initial
response is thrown inside the response callback — it is not converted
into an error event, and being inside an asynchronous callback it
escapes the submit-input try/catch up the event loop. -/
theorem chat_transport_error_paths :
    (∀ m, onRequestError m = Reaction.sendErrorEvent ("Request error: " ++ m)) ∧
    (∀ m, onResponseStreamError m = Reaction.sendErrorEvent ("Stream error: " ++ m)) ∧
    onResponseStatus 500 = Reaction.thrown "HTTP error! status: 500" ∧
    (∀ m, onResponseStatus 500 ≠ Reaction.sendErrorEvent m) := by
  refine ⟨fun m => rfl, fun m => rfl, by decide, fun m => ?_⟩
  simp [onResponseStatus]

/-! ## C3: killProcessOnPort -/

theorem unixKillTrace_forced (k : String → Bool) :
    ∀ (pids : List String) (e : String × SigKind), e ∈ unixKillTrace k pids →
      e.2 = SigKind.forced := by
  intro pids
  induction pids with
  | nil => intro e he; simp [unixKillTrace] at he
  | cons p rest ih =>
    intro e he
    rw [unixKillTrace] at he
    by_cases hp : p = ""
    · rw [if_pos hp] at he
      exact ih e he
    · rw [if_neg hp] at he
      by_cases hk : k p = true
      · rw [if_pos hk] at he
        rcases List.mem_cons.mp he with h | h
        · rw [h]
        · exact ih e h
      · rw [if_neg hk] at he
        rcases List.mem_singleton.mp he with h
        rw [h]

theorem unixKillTrace_all_ok (k : String → Bool) :
    ∀ pids : List String, (∀ q ∈ pids, k q = true) →
      unixKillTrace k pids = (pids.filter (· ≠ "")).map fun p => (p, SigKind.forced) := by
  intro pids
  induction pids with
  | nil => intro _; rfl
  | cons p rest ih =>
    intro h
    rw [unixKillTrace]
    by_cases hp : p = ""
    · rw [if_pos hp]
      rw [ih fun q hq => h q (List.mem_cons_of_mem p hq)]
      subst hp
      simp
    · rw [if_neg hp, if_pos (h p (List.mem_cons_self p rest))]
      rw [ih fun q hq => h q (List.mem_cons_of_mem p hq)]
      simp [hp]

theorem unixKillTrace_abort (k : String → Bool) :
    ∀ (l₁ : List String) (p : String) (l₂ : List String),
      (∀ q ∈ l₁, q ≠ "" ∧ k q = true) → p ≠ "" → k p = false →
      unixKillTrace k (l₁ ++ p :: l₂) =
        (l₁.map fun q => (q, SigKind.forced)) ++ [(p, SigKind.forced)] := by
  intro l₁
  induction l₁ with
  | nil =>
    intro p l₂ _ hp hk
    rw [List.nil_append, unixKillTrace, if_neg hp, if_neg (by simp [hk])]
    rfl
  | cons q rest ih =>
    intro p l₂ hq hp hk
    have hqhead := hq q (List.mem_cons_self q rest)
    rw [List.cons_append, unixKillTrace, if_neg hqhead.1, if_pos hqhead.2]
    rw [ih p l₂ (fun r hr => hq r (List.mem_cons_of_mem q hr)) hp hk]
    rfl

/-- C3 counterexample: on the unix branch with candidate pids 11 and 22
where killing 11 fails, candidate 22 — although bound to the port — is
never sent any signal (so the candidates are not treated independently),
and the only signal sent is the forced kill, with no graceful step. -/
theorem killProcessOnPort_counterexample :
    "22" ∈ (unixPidLines "11\n22").filter (· ≠ "") ∧
    (killProcessOnPort Platform.unix
        ⟨none, some "11\n22", fun p => !(p == "11")⟩).1 = [("11", SigKind.forced)] := by
  constructor
  · decide
  · rfl

/-- C3 (amended): killProcessOnPort never throws — in particular it
returns normally when no process is bound — and it sends a single
forced termination signal per candidate, never a graceful one.  On
Windows every candidate receives its kill attempt regardless of the
outcomes of the other kills; on the unix branch candidates are signaled
in order only up to and including the first one whose kill fails, and
later candidates receive nothing. -/
theorem killProcessOnPort_behavior :
    (∀ plat env, (killProcessOnPort plat env).2 = false) ∧
    (∀ plat env, ∀ e ∈ (killProcessOnPort plat env).1, e.2 = SigKind.forced) ∧
    (∀ env out, env.netstat = some out →
      (killProcessOnPort Platform.win32 env).1 =
        (winCandidates out).map fun p => (p, SigKind.forced)) ∧
    (∀ env out, env.lsof = some out → (∀ q ∈ unixPidLines out, env.killOk q = true) →
      (killProcessOnPort Platform.unix env).1 =
        ((unixPidLines out).filter (· ≠ "")).map fun p => (p, SigKind.forced)) ∧
    (∀ env out l₁ p l₂, env.lsof = some out →
      unixPidLines out = l₁ ++ p :: l₂ →
      (∀ q ∈ l₁, q ≠ "" ∧ env.killOk q = true) → p ≠ "" → env.killOk p = false →
      (killProcessOnPort Platform.unix env).1 =
        (l₁.map fun q => (q, SigKind.forced)) ++ [(p, SigKind.forced)]) := by
  refine ⟨?_, ?_, ?_, ?_, ?_⟩
  · intro plat env
    cases plat with
    | win32 =>
      cases h : env.netstat with
      | none => simp [killProcessOnPort, h]
      | some out => by_cases ho : out = "" <;> simp [killProcessOnPort, h, ho]
    | unix =>
      cases h : env.lsof with
      | none => simp [killProcessOnPort, h]
      | some out => by_cases ho : out = "" <;> simp [killProcessOnPort, h, ho]
  · intro plat env e he
    cases plat with
    | win32 =>
      cases h : env.netstat with
      | none => simp [killProcessOnPort, h] at he
      | some out =>
        by_cases ho : out = ""
        · simp [killProcessOnPort, h, ho] at he
        · simp [killProcessOnPort, h, ho] at he
          obtain ⟨p, _, hp⟩ := he
          rw [← hp]
    | unix =>
      cases h : env.lsof with
      | none => simp [killProcessOnPort, h] at he
      | some out =>
        by_cases ho : out = ""
        · simp [killProcessOnPort, h, ho] at he
        · simp only [killProcessOnPort, h, ho, if_neg, ite_false] at he
          exact unixKillTrace_forced env.killOk _ e (by simpa [ho] using he)
  · intro env out h
    by_cases ho : out = ""
    · subst ho
      simp [killProcessOnPort, h]
      decide
    · simp [killProcessOnPort, h, ho]
  · intro env out h hall
    by_cases ho : out = ""
    · subst ho
      simp [killProcessOnPort, h]
      decide
    · simp only [killProcessOnPort, h, ho, ite_false]
      rw [unixKillTrace_all_ok env.killOk (unixPidLines out) hall]
  · intro env out l₁ p l₂ h hsplit hl₁ hp hk
    have ho : out ≠ "" := by
      intro ho
      subst ho
      have : unixPidLines "" = [""] := rfl
      rw [this] at hsplit
      cases l₁ with
      | nil =>
        simp at hsplit
        exact hp hsplit.1.symm
      | cons a b => simp at hsplit
    simp only [killProcessOnPort, h, ho, ite_false]
    rw [hsplit]
    rw [unixKillTrace_abort env.killOk l₁ p l₂ hl₁ hp hk]

/-- C3 witness: on Windows a netstat line yields its pid, which receives
one forced kill even though the kill oracle fails everything; on unix a
single healthy pid receives one forced kill. -/
theorem killProcessOnPort_behavior_witness :
    (killProcessOnPort Platform.win32
        ⟨some "  TCP    0.0.0.0:5678   0.0.0.0:0   LISTENING   4321", none, fun _ => false⟩).1 =
      [("4321", SigKind.forced)] ∧
    (killProcessOnPort Platform.unix ⟨none, some "77", fun _ => true⟩).1 =
      [("77", SigKind.forced)] := by
  constructor
  · have h := killProcessOnPort_behavior.2.2.1
      ⟨some "  TCP    0.0.0.0:5678   0.0.0.0:0   LISTENING   4321", none, fun _ => false⟩
      "  TCP    0.0.0.0:5678   0.0.0.0:0   LISTENING   4321" rfl
    rw [h]
    decide
  · have h := killProcessOnPort_behavior.2.2.2.1 ⟨none, some "77", fun _ => true⟩ "77" rfl
      (fun q _ => rfl)
    rw [h]
    decide


/-! ## C4: duplicate tool-argument chunks -/

/-- C4: a tool_call_chunk whose arguments are already a suffix of the
accumulated arguments of the trailing running tool block — the chunk
carrying either no name or the name of that same block — leaves the
message unchanged: in particular the accumulated argument length does
not grow, the chunk being discarded as a duplicate. -/
theorem toolCallChunk_duplicate_suffix (msg : AssistantMsg) (blocks₀ : List ChatBlock)
    (t : ToolExec) (nm args : String)
    (hblocks : msg.blocks = blocks₀ ++ [ChatBlock.tool t])
    (hstatus : t.status = BlockStatus.running)
    (hname : t.name ≠ "")
    (hnm : nm = "" ∨ nm = t.name)
    (hsuf : args.data <:+ t.args.data) :
    handleToolCallChunk msg nm args = msg := by
  have hlast : msg.blocks.getLast? = some (ChatBlock.tool t) := by
    rw [hblocks]
    exact List.getLast?_concat blocks₀
  have hsufb : jsEndsWith t.args args = true := by
    unfold jsEndsWith
    exact List.isSuffixOf_iff_suffix.mpr hsuf
  rcases hnm with rfl | rfl
  · by_cases hargs : args = ""
    · subst hargs
      simp [handleToolCallChunk]
    · simp [handleToolCallChunk, hargs, hlast, hstatus, hsufb]
  · by_cases hargs : args = ""
    · subst hargs
      simp [handleToolCallChunk, hlast, hstatus, hname]
    · simp [handleToolCallChunk, hargs, hlast, hstatus, hname, hsufb]

/-- C4 witness: a chunk repeating the suffix of the accumulated
arguments of the running search tool is discarded. -/
theorem toolCallChunk_duplicate_suffix_witness :
    handleToolCallChunk
        ⟨"", "", [ChatBlock.tool ⟨"search", "abc", none, BlockStatus.running, none⟩]⟩ "" "bc" =
      ⟨"", "", [ChatBlock.tool ⟨"search", "abc", none, BlockStatus.running, none⟩]⟩ :=
  toolCallChunk_duplicate_suffix _ [] _ "" "bc" rfl rfl (by decide) (Or.inl rfl)
    ⟨['a'], by decide⟩

/-! ## C5: the check-shortcut probe -/

/-- C5: probing the accelerator this process currently holds answers
false and leaves the registration state untouched; probing a free
accelerator answers true and also leaves the registration state exactly
as it was, the throwaway registration being removed again. -/
theorem checkShortcut_probe (os : String → Bool) (st : HkState) (s : String) :
    (s ∈ st.regs → checkShortcut os st s = (st, false)) ∧
    (s ∉ st.regs → os s = true → checkShortcut os st s = (st, true)) := by
  constructor
  · intro hmem
    simp [checkShortcut, hmem]
  · intro hmem hos
    unfold checkShortcut registerOne
    rw [if_neg hmem, if_neg (by simp [hmem, hos])]
    simp [List.erase_append_right _ hmem]

/-- C5 witness: probing the held accelerator answers false, probing a
free one answers true, both leaving the single held binding in place. -/
theorem checkShortcut_probe_witness :
    checkShortcut (fun a => a == "Alt+X") ⟨["Ctrl+Alt+Q"], "Ctrl+Alt+Q"⟩ "Ctrl+Alt+Q" =
      (⟨["Ctrl+Alt+Q"], "Ctrl+Alt+Q"⟩, false) ∧
    checkShortcut (fun a => a == "Alt+X") ⟨["Ctrl+Alt+Q"], "Ctrl+Alt+Q"⟩ "Alt+X" =
      (⟨["Ctrl+Alt+Q"], "Ctrl+Alt+Q"⟩, true) :=
  ⟨(checkShortcut_probe _ _ _).1 (by decide),
   (checkShortcut_probe _ _ _).2 (by decide) (by decide)⟩

/-! ## C6: the preload channel bridge -/

theorem runBridgeOps_invariant {H : Type} [DecidableEq H] (ops : List (BridgeOp H)) :
    (runBridgeOps ops).lowLevel = 1 ∧ (runBridgeOps ops).callbacks.Nodup := by
  suffices Hgen : ∀ b : Bridge H, b.lowLevel = 1 → b.callbacks.Nodup →
      (ops.foldl applyBridgeOp b).lowLevel = 1 ∧ (ops.foldl applyBridgeOp b).callbacks.Nodup by
    exact Hgen (createChannelBridge H) rfl List.nodup_nil
  induction ops with
  | nil => intro b h1 h2; exact ⟨h1, h2⟩
  | cons op rest ih =>
    intro b h1 h2
    rw [List.foldl_cons]
    apply ih
    · cases op with
      | sub h => by_cases hm : h ∈ b.callbacks <;> simp [applyBridgeOp, bridgeSubscribe, hm, h1]
      | unsub h => simp [applyBridgeOp, bridgeUnsubscribe, h1]
    · cases op with
      | sub h =>
        by_cases hm : h ∈ b.callbacks
        · simpa [applyBridgeOp, bridgeSubscribe, hm] using h2
        · simp only [applyBridgeOp, bridgeSubscribe, hm, ite_false]
          simp [List.nodup_append]
          exact ⟨h2, by simpa using hm⟩
      | unsub h =>
        simp only [applyBridgeOp, bridgeUnsubscribe]
        exact h2.erase h

/-- C6: however many subscribe and unsubscribe calls are made against a
channel bridge, exactly one low-level ipcRenderer listener exists; a
publish hands the payload to the subscribed callbacks exactly in
subscription order, and every currently subscribed handler receives the
payload exactly once per publish (a handler not subscribed receives
nothing). -/
theorem channel_bridge_fanout {H P : Type} [DecidableEq H] [DecidableEq P]
    (ops : List (BridgeOp H)) (h : H) (p : P) :
    (runBridgeOps ops).lowLevel = 1 ∧
    (bridgePublish (runBridgeOps ops) p).map Prod.fst = (runBridgeOps ops).callbacks ∧
    ((bridgePublish (runBridgeOps ops) p).filter (fun e => e.1 == h)).length =
      (if h ∈ (runBridgeOps ops).callbacks then 1 else 0) := by
  obtain ⟨h1, h2⟩ := runBridgeOps_invariant ops
  refine ⟨h1, ?_, ?_⟩
  · unfold bridgePublish
    rw [List.map_map]
    have hid : (Prod.fst ∘ fun cb : H => (cb, p)) = id := rfl
    rw [hid, List.map_id]
  · unfold bridgePublish
    rw [List.filter_map]
    rw [List.length_map]
    have hpf : ((fun e : H × P => e.1 == h) ∘ fun cb : H => (cb, p)) =
        fun cb : H => cb == h := rfl
    rw [hpf]
    rw [show ((runBridgeOps ops).callbacks.filter fun cb => cb == h).length =
        (runBridgeOps ops).callbacks.count h from
      (by rw [List.count, List.countP_eq_length_filter])]
    by_cases hm : h ∈ (runBridgeOps ops).callbacks
    · rw [if_pos hm]
      exact List.count_eq_one_of_mem h2 hm
    · rw [if_neg hm]
      exact List.count_eq_zero.mpr hm

/-! ## C7: submission gating by the session state -/

theorem onBotStreamFlags_keeps_responding {st : ChatUiFlags} {t : StreamTag}
    (hresp : st.isResponding = true) (he : t ≠ StreamTag.error)
    (hf : t ≠ StreamTag.finish) : (onBotStreamFlags st t).isResponding = true := by
  cases t <;> simp_all [onBotStreamFlags]

theorem foldl_keeps_responding :
    ∀ (evs : List StreamTag) (st : ChatUiFlags), st.isResponding = true →
      (∀ t ∈ evs, t ≠ StreamTag.error ∧ t ≠ StreamTag.finish) →
      (evs.foldl onBotStreamFlags st).isResponding = true := by
  intro evs
  induction evs with
  | nil => intro st h _; exact h
  | cons t rest ih =>
    intro st h hall
    rw [List.foldl_cons]
    have ht := hall t (List.mem_cons_self t rest)
    exact ih _ (onBotStreamFlags_keeps_responding h ht.1 ht.2)
      fun u hu => hall u (List.mem_cons_of_mem t hu)

/-- C7: a submission from the idle state with nonblank input is accepted
and switches the session to responding; from then on every bot-stream
event other than error or finish keeps it responding, and while
responding every submission is rejected without any state change; an
error or finish event returns the session to idle, after which a
nonblank submission is accepted again. -/
theorem session_submission_gating (st : ChatUiFlags) (input : String)
    (evs : List StreamTag) :
    (st.isResponding = false → strTrim input ≠ "" →
      (submitInput st input).2 = true ∧ (submitInput st input).1.isResponding = true) ∧
    (st.isResponding = true →
      (∀ t ∈ evs, t ≠ StreamTag.error ∧ t ≠ StreamTag.finish) →
      (evs.foldl onBotStreamFlags st).isResponding = true) ∧
    (st.isResponding = true → submitInput st input = (st, false)) ∧
    (onBotStreamFlags st StreamTag.error).isResponding = false ∧
    (onBotStreamFlags st StreamTag.finish).isResponding = false ∧
    (strTrim input ≠ "" →
      (submitInput (onBotStreamFlags st StreamTag.error) input).2 = true ∧
      (submitInput (onBotStreamFlags st StreamTag.finish) input).2 = true) := by
  refine ⟨?_, ?_, ?_, rfl, rfl, ?_⟩
  · intro hidle hinput
    simp [submitInput, hidle, hinput]
  · intro hresp hall
    exact foldl_keeps_responding evs st hresp hall
  · intro hresp
    simp [submitInput, hresp]
  · intro hinput
    constructor <;> simp [submitInput, onBotStreamFlags, hinput]

/-- C7 witness: from idle a submission is accepted; content and tool
chunk events keep the session responding; a submission while responding
is rejected unchanged; after an error event a new submission is
accepted. -/
theorem session_submission_gating_witness :
    ((submitInput ⟨false, false⟩ "hi").2 = true ∧
      (submitInput ⟨false, false⟩ "hi").1.isResponding = true) ∧
    ([StreamTag.content, StreamTag.toolChunk].foldl onBotStreamFlags
        ⟨true, true⟩).isResponding = true ∧
    submitInput ⟨true, false⟩ "hi" = (⟨true, false⟩, false) ∧
    (submitInput (onBotStreamFlags ⟨true, false⟩ StreamTag.error) "hi").2 = true :=
  ⟨(session_submission_gating ⟨false, false⟩ "hi" []).1 rfl (by decide),
   (session_submission_gating ⟨true, true⟩ "hi"
      [StreamTag.content, StreamTag.toolChunk]).2.1 rfl (by decide),
   (session_submission_gating ⟨true, false⟩ "hi" []).2.2.1 rfl,
   ((session_submission_gating ⟨true, false⟩ "hi" []).2.2.2.2.2 (by decide)).1⟩

/-! ## C8: the answer event and accumulated content -/

/-- C8: an answer event arriving while the accumulated content is empty
or whitespace-only makes the answer text the final content; when
nonblank streamed content was already received the answer event leaves
the whole message unchanged, so none of the received text is
duplicated. -/
theorem answer_event_content (msg : AssistantMsg) (ans : String) :
    ((msg.content = "" ∨ strTrim msg.content = "") →
      (handleAnswer msg ans).content = ans) ∧
    (msg.content ≠ "" → strTrim msg.content ≠ "" → handleAnswer msg ans = msg) := by
  constructor
  · intro h
    unfold handleAnswer
    rw [if_pos h]
  · intro h1 h2
    unfold handleAnswer
    rw [if_neg (by simp [h1, h2])]

/-- C8 witness: with no accumulated content the answer text becomes the
content; with accumulated content the message is untouched. -/
theorem answer_event_content_witness :
    (handleAnswer ⟨"", "", []⟩ "final").content = "final" ∧
    handleAnswer ⟨"partial", "", [ChatBlock.text "partial"]⟩ "final" =
      ⟨"partial", "", [ChatBlock.text "partial"]⟩ :=
  ⟨(answer_event_content _ _).1 (Or.inl rfl),
   (answer_event_content _ _).2 (by decide) (by decide)⟩

/-! ## C9: the navigate-route subscription leak -/

/-- C9: every onNavigate call installs one more low-level listener on
the navigate-route channel (and returns no unsubscribe value), so after
n subscriptions of the same callback a single publish invokes that
callback n times — the one-listener-per-channel guarantee of the
bridged channels does not hold here. -/
theorem onNavigate_accumulates {H P : Type} [DecidableEq H] [DecidableEq P]
    (n : Nat) (cb : H) (p : P) :
    (navAfter n cb).listeners.length = n ∧
    (navPublish (navAfter n cb) p).count (cb, p) = n := by
  induction n with
  | zero => exact ⟨rfl, rfl⟩
  | succ m ih =>
    constructor
    · show (onNavigate (navAfter m cb) cb).listeners.length = m + 1
      simp [onNavigate, ih.1]
    · show (navPublish (onNavigate (navAfter m cb) cb) p).count (cb, p) = m + 1
      have h2 : (navPublish (navAfter m cb) p).count (cb, p) = m := ih.2
      simp only [navPublish, onNavigate, List.map_append, List.count_append] at h2 ⊢
      simp [h2]

/-! ## C10: registerGlobalShortcut and resume -/

theorem registerGlobalShortcut_ok {os : String → Bool} {st : HkState} {s : String}
    (h : os s = true) : registerGlobalShortcut os st s = ⟨[s], s⟩ := by
  simp [registerGlobalShortcut, registerOne, h]

theorem registerGlobalShortcut_fail {os : String → Bool} {st : HkState} {s : String}
    (h : os s = false) : registerGlobalShortcut os st s = ⟨[], st.current⟩ := by
  simp [registerGlobalShortcut, registerOne, h]

theorem current_after_folds (os : String → Bool) :
    ∀ (reqs : List String) (st : HkState),
      (reqs.foldl (registerGlobalShortcut os) st).current =
        reqs.foldl (fun cur r => if os r then r else cur) st.current := by
  intro reqs
  induction reqs with
  | nil => intro st; rfl
  | cons r rs ih =>
    intro st
    cases h : os r with
    | true => simp [List.foldl_cons, registerGlobalShortcut_ok h, ih, h]
    | false => simp [List.foldl_cons, registerGlobalShortcut_fail h, ih, h]

/-- C10: registerGlobalShortcut unregisters everything first and only a
successful registration updates the remembered accelerator: after a
failed registration no binding is active and the remembered accelerator
is unchanged; over any sequence of registration requests the remembered
accelerator is the last successfully registered one; and a resume after
a failed registration re-registers that last successful accelerator,
not the failed one. -/
theorem registerGlobalShortcut_remembered (os : String → Bool) (st : HkState)
    (s : String) (reqs : List String) :
    (os s = false → registerGlobalShortcut os st s = ⟨[], st.current⟩) ∧
    ((reqs.foldl (registerGlobalShortcut os) st).current =
      reqs.foldl (fun cur r => if os r then r else cur) st.current) ∧
    (os s = false → os st.current = true → st.current ≠ "" →
      resumeShortcut os (registerGlobalShortcut os st s) = ⟨[st.current], st.current⟩) := by
  refine ⟨?_, current_after_folds os reqs st, ?_⟩
  · intro h
    exact registerGlobalShortcut_fail h
  · intro h1 h2 h3
    rw [registerGlobalShortcut_fail h1]
    unfold resumeShortcut
    rw [if_pos (by simpa using h3)]
    exact registerGlobalShortcut_ok h2

/-- C10 witness: registering an unavailable accelerator leaves nothing
bound but keeps the remembered one, and resume then re-registers the
remembered accelerator. -/
theorem registerGlobalShortcut_remembered_witness :
    registerGlobalShortcut (fun a => a == "Ctrl+Alt+Q")
        ⟨["Ctrl+Alt+Q"], "Ctrl+Alt+Q"⟩ "BadKey" = ⟨[], "Ctrl+Alt+Q"⟩ ∧
    resumeShortcut (fun a => a == "Ctrl+Alt+Q")
        (registerGlobalShortcut (fun a => a == "Ctrl+Alt+Q")
          ⟨["Ctrl+Alt+Q"], "Ctrl+Alt+Q"⟩ "BadKey") =
      ⟨["Ctrl+Alt+Q"], "Ctrl+Alt+Q"⟩ :=
  ⟨(registerGlobalShortcut_remembered (fun a => a == "Ctrl+Alt+Q")
      ⟨["Ctrl+Alt+Q"], "Ctrl+Alt+Q"⟩ "BadKey" []).1 (by decide),
   (registerGlobalShortcut_remembered (fun a => a == "Ctrl+Alt+Q")
      ⟨["Ctrl+Alt+Q"], "Ctrl+Alt+Q"⟩ "BadKey" []).2.2 (by decide) (by decide) (by decide)⟩

end FinAgent
